import Mathlib

/-!
Shallow embedding of the `sqlb` query-building library (sqlb.go) and proofs
about its specification.

Modelling conventions:
- Go strings are lists of characters (`Str`); Go's `strings.Count(s, "?")`
  equals `List.count '?'` on the character list, since `'?'` is a single-byte
  ASCII rune that cannot occur inside a UTF-8 continuation sequence.
- The `Query` struct mirrors the Go struct: the `*strings.Builder` field is
  `Option Str`, with `none` modelling the nil pointer of a zero value.
  The `lastByte` byte field is modelled as a `Char`; it is only ever compared
  against `' '`, and for valid UTF-8 the last byte of a string equals `' '`
  exactly when its last rune does.
- Panics are modelled as `Except.error` carrying the panic message; for
  `Append` (a pointer-receiver method) the error also carries the receiver
  state at the moment of the panic, which the source leaves unmutated.
- Query arguments (`[]any` in Go) are `Val`: either an opaque scalar or a
  value implementing the `SQLer` interface, which for this library is a
  `Query` value, i.e. a buffer together with its own argument list.
-/

namespace Sqlb

/-- Go strings, modelled as lists of characters. -/
abbrev Str := List Char

/-- A query argument (`any` in the source): an opaque scalar value, or a
value satisfying the `SQLer` interface, carried as the underlying `Query`
data (buffer and argument list). -/
inductive Val where
  | scalar (v : String)
  | sqler (buf : Option Str) (args : List Val)

/-- Whether an argument satisfies the `SQLer` interface (the type switch
`a.(SQLer)` in the source). -/
def Val.isSqler : Val → Bool
  | .sqler _ _ => true
  | .scalar _ => false

/-- Model of the Go `Query` struct (sqlb.go lines 85-89): a `*strings.Builder`
buffer (`none` is the nil pointer of the zero value), the flat argument list,
and the `lastByte` tracking byte. -/
structure Query where
  query : Option Str
  args : List Val
  lastByte : Char

/-- The zero value `var q sqlb.Query`: nil buffer, nil args, zero byte. -/
def Query.zero : Query := ⟨none, [], Char.ofNat 0⟩

/-- Model of `(*Query).Append` (sqlb.go lines 100-118). The parity check
panics before any mutation; the error carries the panic message and the
untouched receiver. On success: a single space separator is written when the
buffer is non-empty and `lastByte` is not a space, then the fragment is
appended and `lastByte` updated when the fragment is non-empty. -/
def Query.appendGo (q : Query) (frag : Str) (args : List Val) :
    Except (String × Query) Query :=
  let want := frag.count '?'
  let got := args.length
  if want ≠ got then
    .error (s!"want {want} args, got {got}", q)
  else
    let buf := q.query.getD []
    let buf1 := if 0 < buf.length ∧ q.lastByte ≠ ' ' then buf ++ [' '] else buf
    let buf2 := buf1 ++ frag
    let lb := if 0 < frag.length then frag.getLastD q.lastByte else q.lastByte
    .ok ⟨some buf2, q.args ++ args, lb⟩

/-- Model of `NewQuery` (sqlb.go lines 92-96): append onto the zero value. -/
def NewQueryGo (frag : Str) (args : List Val) : Except (String × Query) Query :=
  Query.zero.appendGo frag args

/-- Panic message of a nil `*strings.Builder` dereference. -/
def nilDerefMsg : String :=
  "runtime error: invalid memory address or nil pointer dereference"

/-- Panic message of `q.args[count]` out of range. -/
def indexOutOfRangeMsg : String := "runtime error: index out of range"

mutual

/-- Model of `Query.SQL` (sqlb.go lines 122-159) on the underlying data.
Fast path: when no argument satisfies `SQLer`, return the buffer string and
the argument slice unchanged (dereferencing a nil buffer panics). Slow path:
walk the buffer runes with a placeholder counter (`expandLoop`). -/
def sqlOf (buf : Option Str) (args : List Val) : Except String (Str × List Val) :=
  if args.any Val.isSqler then
    match buf with
    | none => .error nilDerefMsg
    | some s => expandLoop args s 0
  else
    match buf with
    | none => .error nilDerefMsg
    | some s => .ok (s, args)
termination_by (sizeOf args + 1, 0)
decreasing_by
  exact Prod.Lex.left _ _ (Nat.lt_succ_self _)

/-- The slow-path loop of `Query.SQL` (sqlb.go lines 138-156): every
non-`'?'` rune is copied verbatim; on `'?'`, the argument at the current
counter is consulted: a `SQLer` argument has its own `SQL()` spliced in and
its arguments appended, any other argument re-emits the literal `'?'` and
appends that single argument; the counter advances either way. -/
def expandLoop (args : List Val) : Str → Nat → Except String (Str × List Val)
  | [], _ => .ok ([], [])
  | c :: cs, count =>
    if c = '?' then
      match h : args.get? count with
      | none => .error indexOutOfRangeMsg
      | some (.scalar v) =>
        match expandLoop args cs (count + 1) with
        | .error e => .error e
        | .ok (ts, as) => .ok ('?' :: ts, .scalar v :: as)
      | some (.sqler b a) =>
        match sqlOf b a with
        | .error e => .error e
        | .ok (ts, as) =>
          match expandLoop args cs (count + 1) with
          | .error e => .error e
          | .ok (ts2, as2) => .ok (ts ++ ts2, as ++ as2)
    else
      match expandLoop args cs count with
      | .error e => .error e
      | .ok (ts, as) => .ok (c :: ts, as)
termination_by s count => (sizeOf args, s.length + 1)
decreasing_by
  · exact Prod.Lex.right _ (by simp)
  · refine Prod.Lex.left _ _ ?_
    have hmem : Val.sqler b a ∈ args := List.get?_mem h
    have hsz : sizeOf (Val.sqler b a) < sizeOf args := List.sizeOf_lt_of_mem hmem
    simp only [Val.sqler.sizeOf_spec] at hsz
    omega
  · exact Prod.Lex.right _ (by simp)
  · exact Prod.Lex.right _ (by simp)

end

/-- Model of `Query.SQL` on a `Query` value. -/
def Query.SQLgo (q : Query) : Except String (Str × List Val) :=
  sqlOf q.query q.args

/-- Depth-first, left-to-right flattening of an argument list, as the spec
describes the result of expansion: a scalar stays in place, a sub-query
contributes its own (recursively flattened) arguments. -/
def flattenArgs : List Val → List Val
  | [] => []
  | .scalar v :: rest => .scalar v :: flattenArgs rest
  | .sqler _ a :: rest => flattenArgs a ++ flattenArgs rest

mutual

/-- Well-formedness of a `SQLer` value as the library's `Append` maintains
it: the buffer is present and its placeholder count matches the argument
count, recursively at every nesting level. -/
def Val.wfB : Val → Bool
  | .scalar _ => true
  | .sqler none _ => false
  | .sqler (some s) args => (s.count '?' == args.length) && wfListB args

/-- Well-formedness of every value in an argument list. -/
def wfListB : List Val → Bool
  | [] => true
  | v :: vs => v.wfB && wfListB vs

end

/-- Number of `'?'` placeholders in a Query's buffer (an empty/nil buffer
has zero). -/
def Query.placeholderCount (q : Query) : Nat := (q.query.getD []).count '?'

/-- Run a sequence of `Append` calls, starting from a given query; the first
panic aborts the sequence, carrying the message and the state at fault time. -/
def Query.appendAll (q : Query) : List (Str × List Val) → Except (String × Query) Query
  | [] => .ok q
  | (frag, args) :: rest =>
    match q.appendGo frag args with
    | .error e => .error e
    | .ok q2 => q2.appendAll rest

/-- A column name / value pair, modelling `sql.NamedArg`. -/
structure NamedArg where
  name : Str
  value : Val

/-- Model of the `Updatable` interface (sqlb.go lines 167-170): a generated
predicate on column names and an ordered column/value list. -/
structure Updatable where
  isGenerated : Str → Bool
  values : List NamedArg

/-- Model of the `Insertable` interface (sqlb.go lines 192-195). -/
structure Insertable where
  isGenerated : Str → Bool
  values : List NamedArg

/-- The loop of `UpdateSQL` (sqlb.go lines 175-187): skip generated columns;
for each remaining column append the fragment `p + name + "=?"` with the
column's value, where `p` is `", "` once a first column has been set. -/
def updateLoop (item : Updatable) : List NamedArg → Bool → Query →
    Except (String × Query) Query
  | [], _, b => .ok b
  | v :: rest, set, b =>
    if item.isGenerated v.name then
      updateLoop item rest set b
    else
      let p : Str := if set then ", ".toList else []
      match b.appendGo (p ++ v.name ++ "=?".toList) [v.value] with
      | .error e => .error e
      | .ok b2 => updateLoop item rest true b2

/-- Model of `UpdateSQL` (sqlb.go lines 174-189): run the loop over the
item's values, starting from the zero-value builder query. -/
def UpdateSQLgo (item : Updatable) : Except (String × Query) Query :=
  updateLoop item item.values false Query.zero

/-- The non-generated columns of an `Insertable` item, in declared order. -/
def nonGenerated (item : Insertable) : List NamedArg :=
  item.values.filter (fun v => !item.isGenerated v.name)

/-- Model of `InsertSQL` (sqlb.go lines 199-234): zero items panic; the
column list and placeholder-group size are derived from the first item only;
one group is emitted per item; the values are the per-item non-generated
values, item-major. -/
def InsertSQLgo (items : List Insertable) : Except String Query :=
  match items with
  | [] => .error "InsertSQL called with zero arguments"
  | first :: _ =>
    let columns := (first.values.filter (fun v => !first.isGenerated v.name)).map NamedArg.name
    let placeholders := List.replicate columns.length ("?".toList)
    let rowPlaceholder := "(".toList ++ List.intercalate ", ".toList placeholders ++ ")".toList
    let rows := List.replicate items.length rowPlaceholder
    let values := items.flatMap
      (fun item => (item.values.filter (fun v => !item.isGenerated v.name)).map NamedArg.value)
    let frag := "(".toList ++ List.intercalate ", ".toList columns ++ ") VALUES ".toList ++
      List.intercalate ", ".toList rows
    match NewQueryGo frag values with
    | .error e => .error e.1
    | .ok q => .ok q

/-- The runtime-recoverable error classes of the execution engine: the
distinguished no-rows sentinel (`sql.ErrNoRows`), query-execution failures,
column-retrieval failures, and scan failures. -/
inductive DBError where
  | noRows
  | connFail (msg : String)
  | colsFail (msg : String)
  | scanFail (msg : String)
deriving DecidableEq

/-- Model of the relevant observations of an `*sql.Rows` cursor: the result
of `Columns()`, the sequence of rows `Next()` walks, and the value of the
post-loop `Err()` (`none` means nil). -/
structure RowsModel (Row : Type) where
  cols : Except DBError (List Str)
  data : List Row
  errRes : Option DBError

/-- Model of `ScanRow` (sqlb.go lines 274-301). The query text and args are
first resolved through `NewQuery(...).SQL()` (panics propagate as `.error`);
the db is a function from final text/args to a rows result; an empty row set
returns the `noRows` sentinel before columns are ever retrieved; otherwise
the destination's `ScanFrom` is called with the column names and first row.
Returned (recoverable) errors are `.ok (some e)`; success is `.ok none`. -/
def ScanRowGo {Row : Type} (db : Str → List Val → Except DBError (RowsModel Row))
    (scanFrom : List Str → Row → Except DBError Unit)
    (query : Str) (args : List Val) : Except String (Option DBError) :=
  match NewQueryGo query args with
  | .error e => .error e.1
  | .ok q =>
    match q.SQLgo with
    | .error msg => .error msg
    | .ok (text, fargs) =>
      match db text fargs with
      | .error e => .ok (some e)
      | .ok rows =>
        match rows.data with
        | [] => .ok (some DBError.noRows)
        | first :: _ =>
          match rows.cols with
          | .error e => .ok (some e)
          | .ok columns =>
            match scanFrom columns first with
            | .error e => .ok (some e)
            | .ok _ => .ok none

/-- The row loop of `IterRows` (sqlb.go lines 357-369). Each row is scanned;
a scan failure yields `(zero, err)` and the loop continues when the consumer
does; a successful scan yields `(t, none)`. The consumer's decisions are the
function `c`: `c n` is what the `yield` of the `n`-th emitted pair returns.
Returns the emitted pairs and whether the loop ran to completion. -/
def iterLoop {Row T : Type} [Inhabited T]
    (scanFrom : List Str → Row → Except DBError T)
    (columns : List Str) (c : Nat → Bool) :
    List Row → Nat → List (T × Option DBError) × Bool
  | [], _ => ([], true)
  | r :: rest, n =>
    match scanFrom columns r with
    | .error e =>
      if c n then
        let p := iterLoop scanFrom columns c rest (n + 1)
        ((default, some e) :: p.1, p.2)
      else
        ([(default, some e)], false)
    | .ok t =>
      if c n then
        let p := iterLoop scanFrom columns c rest (n + 1)
        ((t, none) :: p.1, p.2)
      else
        ([(t, none)], false)

/-- Model of the generator body of `IterRows` (sqlb.go lines 341-375), from
the `QueryContext` result onward: a query-execution error or a
column-retrieval error yields a single `(zero, err)` pair and ends the
sequence; otherwise the row loop runs, and if it completes, a non-nil
post-loop `rows.Err()` yields one final `(zero, err)` pair. -/
def iterRowsGo {Row T : Type} [Inhabited T]
    (dbRes : Except DBError (RowsModel Row))
    (scanFrom : List Str → Row → Except DBError T)
    (c : Nat → Bool) : List (T × Option DBError) :=
  match dbRes with
  | .error e => [(default, some e)]
  | .ok rows =>
    match rows.cols with
    | .error e => [(default, some e)]
    | .ok columns =>
      let p := iterLoop scanFrom columns c rows.data 0
      if p.2 then
        match rows.errRes with
        | some e => p.1 ++ [(default, some e)]
        | none => p.1
      else
        p.1

/-- The collection loop of `StmtCache.Close` (sqlb.go lines 599-605): every
cached statement's `Close` is attempted, failures are collected in order. -/
def closeLoop : List (Except String Unit) → List String
  | [] => []
  | .error e :: rest => e :: closeLoop rest
  | .ok _ :: rest => closeLoop rest

/-- Model of `StmtCache.Close` (sqlb.go lines 595-610): close every cached
statement, then `errors.Join` the collected failures; a nil join returns nil,
otherwise the combined failure is wrapped as `closing statements: ...` with
the individual messages joined by newlines. -/
def StmtCacheCloseGo (stmts : List (Except String Unit)) : Option String :=
  match closeLoop stmts with
  | [] => none
  | e :: es => some ("closing statements: " ++ String.intercalate "\n" (e :: es))

/-- Program counter of one goroutine executing `StmtCache.getStmt` for its
query text: before the read-locked lookup, waiting for the exclusive lock
after a read miss, or finished. -/
inductive TPC where
  | start
  | needLock
  | done
deriving DecidableEq

/-- Shared state of the statement cache plus the goroutines: the set of
cached (prepared) texts, the log of prepare calls made so far, and each
goroutine's query text and program counter. -/
structure CacheState where
  prepared : List Str
  log : List Str
  threads : List (Str × TPC)

/-- Interleaving semantics of `StmtCache.getStmt` (sqlb.go lines 569-593).
The read-locked lookup is one atomic step (hit goes straight to done, miss
proceeds to the lock); the whole exclusively-locked section — the re-check,
and on a second miss the prepare call plus map insert — is one atomic step,
because every other access to the map also takes the lock. -/
inductive CacheStep : CacheState → CacheState → Prop where
  | readHit (s : CacheState) (i : Nat) (q : Str)
      (hth : s.threads.get? i = some (q, TPC.start)) (hmem : q ∈ s.prepared) :
      CacheStep s ⟨s.prepared, s.log, s.threads.set i (q, TPC.done)⟩
  | readMiss (s : CacheState) (i : Nat) (q : Str)
      (hth : s.threads.get? i = some (q, TPC.start)) (hmem : q ∉ s.prepared) :
      CacheStep s ⟨s.prepared, s.log, s.threads.set i (q, TPC.needLock)⟩
  | lockHit (s : CacheState) (i : Nat) (q : Str)
      (hth : s.threads.get? i = some (q, TPC.needLock)) (hmem : q ∈ s.prepared) :
      CacheStep s ⟨s.prepared, s.log, s.threads.set i (q, TPC.done)⟩
  | lockPrepare (s : CacheState) (i : Nat) (q : Str)
      (hth : s.threads.get? i = some (q, TPC.needLock)) (hmem : q ∉ s.prepared) :
      CacheStep s ⟨q :: s.prepared, s.log ++ [q], s.threads.set i (q, TPC.done)⟩

/-- Reachability under any interleaving of getStmt steps. -/
def CacheReach (s t : CacheState) : Prop := Relation.ReflTransGen CacheStep s t

/-- A fresh cache (`NewStmtCache`) with the given goroutines. -/
def initCache (threads : List (Str × TPC)) : CacheState := ⟨[], [], threads⟩

theorem wfListB_iff (l : List Val) : wfListB l = true ↔ ∀ v ∈ l, v.wfB = true := by
  induction l with
  | nil => simp [wfListB]
  | cons v vs ih => simp [wfListB, ih]

theorem flattenArgs_all_scalar (args : List Val) :
    (flattenArgs args).all (fun v => !v.isSqler) = true := by
  induction args using flattenArgs.induct with
  | case1 => simp [flattenArgs]
  | case2 v rest ih => simpa [flattenArgs, Val.isSqler] using ih
  | case3 b a rest ih1 ih2 => simp [flattenArgs, ih1, ih2]

theorem flattenArgs_of_no_sqler (args : List Val) (h : args.any Val.isSqler = false) :
    flattenArgs args = args := by
  induction args with
  | nil => simp [flattenArgs]
  | cons v vs ih =>
    simp only [List.any_cons, Bool.or_eq_false_iff] at h
    match v, h.1 with
    | .scalar x, _ => simp [flattenArgs, ih h.2]

theorem expandLoop_cons_succ (v : Val) (args : List Val) (s : Str) (count : Nat) :
    expandLoop (v :: args) s (count + 1) = expandLoop args s count := by
  induction s generalizing count with
  | nil => simp [expandLoop]
  | cons c cs ih =>
    simp only [expandLoop, List.get?_cons_succ]
    by_cases hc : c = '?'
    · simp only [hc, if_pos rfl]
      cases hv : args.get? count with
      | none => rfl
      | some w =>
        cases w with
        | scalar x => simp [ih]
        | sqler b a => simp [ih]
    · simp [hc, ih]

theorem sqlOf_wf : ∀ (n : Nat) (buf : Option Str) (args : List Val), sizeOf args ≤ n →
    Val.wfB (.sqler buf args) = true →
    ∃ t, sqlOf buf args = .ok (t, flattenArgs args) ∧
      t.count '?' = (flattenArgs args).length := by
  intro n
  induction n using Nat.strong_induction_on with
  | _ n ih =>
    intro buf args hsz hwf
    match buf with
    | none => simp [Val.wfB] at hwf
    | some s =>
      simp only [Val.wfB, Bool.and_eq_true, beq_iff_eq] at hwf
      obtain ⟨hparity, hwfl⟩ := hwf
      have inner : ∀ (s2 : Str) (count : Nat), s2.count '?' + count = args.length →
          ∃ t, expandLoop args s2 count = .ok (t, flattenArgs (args.drop count)) ∧
            t.count '?' = (flattenArgs (args.drop count)).length := by
        intro s2
        induction s2 with
        | nil =>
          intro count hc
          simp only [List.count_nil, Nat.zero_add] at hc
          subst hc
          simp [expandLoop, List.drop_length, flattenArgs]
        | cons c cs ihs =>
          intro count hc
          by_cases hcq : c = '?'
          · subst hcq
            have hlt : count < args.length := by
              simp only [List.count_cons_self] at hc
              omega
            have hget : args.get? count = some args[count] :=
              List.get?_eq_getElem? args count ▸ List.getElem?_eq_getElem hlt
            have hdrop : args.drop count = args[count] :: args.drop (count + 1) :=
              List.drop_eq_getElem_cons hlt
            have hccs : cs.count '?' + (count + 1) = args.length := by
              simp only [List.count_cons_self] at hc
              omega
            obtain ⟨t2, hrun2, hcnt2⟩ := ihs (count + 1) hccs
            match hv : args[count] with
            | .scalar x =>
              refine ⟨'?' :: t2, ?_, ?_⟩
              · rw [hv] at hget
                simp only [expandLoop, hdrop, hv, flattenArgs]
                simp only [if_true]
                split <;> simp_all
              · simp [hdrop, hv, flattenArgs, List.count_cons_self, hcnt2]
            | .sqler b a =>
              have hmem : Val.sqler b a ∈ args := by
                rw [← hv]; exact List.getElem_mem hlt
              have hwfv : Val.wfB (.sqler b a) = true :=
                (wfListB_iff args).1 hwfl _ hmem
              have hszlt : sizeOf a < n := by
                have h1 : sizeOf (Val.sqler b a) < sizeOf args := List.sizeOf_lt_of_mem hmem
                simp only [Val.sqler.sizeOf_spec] at h1
                omega
              obtain ⟨t1, hrun1, hcnt1⟩ := ih (sizeOf a) hszlt b a (Nat.le_refl _) hwfv
              refine ⟨t1 ++ t2, ?_, ?_⟩
              · rw [hv] at hget
                simp only [expandLoop, hdrop, hv, flattenArgs]
                simp only [if_true]
                split <;> simp_all
              · simp [hdrop, hv, flattenArgs, List.count_append, hcnt1, hcnt2]
          · have hccs : cs.count '?' + count = args.length := by
              simpa [List.count_cons, hcq] using hc
            obtain ⟨t2, hrun2, hcnt2⟩ := ihs count hccs
            refine ⟨c :: t2, ?_, ?_⟩
            · simp only [expandLoop, if_neg hcq, hrun2]
            · simp [List.count_cons, hcq, hcnt2]
      by_cases hany : args.any Val.isSqler
      · obtain ⟨t, hrun, hcnt⟩ := inner s 0 (by simpa using hparity)
        refine ⟨t, ?_, hcnt ▸ rfl⟩
        simpa [sqlOf, hany] using hrun
      · have hflat : flattenArgs args = args :=
          flattenArgs_of_no_sqler args (by simpa using hany)
        refine ⟨s, ?_, ?_⟩
        · simp [sqlOf, hany, hflat]
        · rw [hflat, hparity]

/-- C1: `SQL()` on a parity-respecting query. Fast path: with no `SQLer`
argument the buffer text and argument slice are returned unchanged; a query
with zero placeholders (hence, under parity, zero arguments) contributes its
full text verbatim and zero arguments. The slow-path walk copies every
non-`'?'` character verbatim, and at a `'?'` either splices the `SQLer`
argument's own `(text, args)` or emits a literal `'?'` with that single
argument. For arbitrary nesting, a well-formed query expands without fault
to a text whose placeholder count matches its argument list, which is the
depth-first, left-to-right flattening of each level's arguments, itself free
of further `SQLer` values. -/
theorem sql_expansion_correct :
    (∀ (s : Str) (args : List Val), args.any Val.isSqler = false →
      sqlOf (some s) args = .ok (s, args)) ∧
    (∀ (t0 : Str), sqlOf (some t0) [] = .ok (t0, [])) ∧
    (∀ (c : Char) (s : Str) (args : List Val) (count : Nat) (t : Str) (a : List Val),
      c ≠ '?' → expandLoop args s count = .ok (t, a) →
      expandLoop args (c :: s) count = .ok (c :: t, a)) ∧
    (∀ (v : String) (rest : List Val) (s2 t2 : Str) (a2 : List Val),
      expandLoop rest s2 0 = .ok (t2, a2) →
      expandLoop (Val.scalar v :: rest) ('?' :: s2) 0 = .ok ('?' :: t2, Val.scalar v :: a2)) ∧
    (∀ (b : Option Str) (a rest : List Val) (s2 t1 t2 : Str) (a1 a2 : List Val),
      sqlOf b a = .ok (t1, a1) → expandLoop rest s2 0 = .ok (t2, a2) →
      expandLoop (Val.sqler b a :: rest) ('?' :: s2) 0 = .ok (t1 ++ t2, a1 ++ a2)) ∧
    (∀ (buf : Option Str) (args : List Val), Val.wfB (.sqler buf args) = true →
      ∃ t, sqlOf buf args = .ok (t, flattenArgs args) ∧
        t.count '?' = (flattenArgs args).length ∧
        (flattenArgs args).all (fun v => !v.isSqler) = true) := by
  refine ⟨?_, ?_, ?_, ?_, ?_, ?_⟩
  · intro s args hany
    simp [sqlOf, hany]
  · intro t0
    simp [sqlOf, Val.isSqler]
  · intro c s args count t a hc hrun
    simp [expandLoop, hc, hrun]
  · intro v rest s2 t2 a2 hrun
    rw [← expandLoop_cons_succ (Val.scalar v) rest s2 0] at hrun
    simp [expandLoop, hrun]
  · intro b a rest s2 t1 t2 a1 a2 h1 hrun
    rw [← expandLoop_cons_succ (Val.sqler b a) rest s2 0] at hrun
    simp [expandLoop, h1, hrun]
  · intro buf args hwf
    obtain ⟨t, hrun, hcnt⟩ := sqlOf_wf (sizeOf args) buf args (Nat.le_refl _) hwf
    exact ⟨t, hrun, hcnt, flattenArgs_all_scalar args⟩

/-- Witness for C1 at the nested query from the package's tests:
`select * from (?) union (?)` with two sub-queries, one of them itself
containing a nested sub-query. -/
theorem sql_expansion_correct_witness :
    ∃ t, sqlOf (some "select * from (?) union (?)".toList)
        [Val.sqler (some "select * from tasks where a=?".toList) [Val.scalar "a"],
         Val.sqler (some "select * from tasks where a=? and ?".toList)
           [Val.scalar "aa", Val.sqler (some "xx=?".toList) [Val.scalar "10"]]] =
      .ok (t, flattenArgs
        [Val.sqler (some "select * from tasks where a=?".toList) [Val.scalar "a"],
         Val.sqler (some "select * from tasks where a=? and ?".toList)
           [Val.scalar "aa", Val.sqler (some "xx=?".toList) [Val.scalar "10"]]]) ∧
      t.count '?' = (flattenArgs
        [Val.sqler (some "select * from tasks where a=?".toList) [Val.scalar "a"],
         Val.sqler (some "select * from tasks where a=? and ?".toList)
           [Val.scalar "aa", Val.sqler (some "xx=?".toList) [Val.scalar "10"]]]).length ∧
      (flattenArgs
        [Val.sqler (some "select * from tasks where a=?".toList) [Val.scalar "a"],
         Val.sqler (some "select * from tasks where a=? and ?".toList)
           [Val.scalar "aa", Val.sqler (some "xx=?".toList) [Val.scalar "10"]]]).all
        (fun v => !v.isSqler) = true :=
  sql_expansion_correct.2.2.2.2.2 _ _ (by rfl)

theorem appendGo_mismatch (q : Query) (frag : Str) (args : List Val) (w g : Nat)
    (hw : w = frag.count '?') (hg : g = args.length) (h : w ≠ g) :
    q.appendGo frag args = .error (s!"want {w} args, got {g}", q) := by
  subst hw; subst hg
  simp [Query.appendGo, h]

theorem appendGo_ok_eq (q : Query) (frag : Str) (args : List Val)
    (h : frag.count '?' = args.length) :
    q.appendGo frag args = .ok ⟨some ((q.query.getD []) ++
        (if 0 < (q.query.getD []).length ∧ q.lastByte ≠ ' ' then [' '] else []) ++ frag),
      q.args ++ args,
      if 0 < frag.length then frag.getLastD q.lastByte else q.lastByte⟩ := by
  simp only [Query.appendGo, h, ne_eq, not_true_eq_false, if_false]
  by_cases hsep : 0 < (q.query.getD []).length ∧ q.lastByte ≠ ' '
  · simp [hsep, List.append_assoc]
  · simp [hsep]

theorem append_preserves_parity (q : Query) (frag : Str) (args : List Val) (q2 : Query)
    (hinv : q.placeholderCount = q.args.length)
    (hok : q.appendGo frag args = .ok q2) :
    q2.placeholderCount = q2.args.length := by
  by_cases hp : frag.count '?' = args.length
  · rw [appendGo_ok_eq q frag args hp] at hok
    cases hok
    simp only [Query.placeholderCount] at hinv ⊢
    by_cases hsep : 0 < (q.query.getD []).length ∧ q.lastByte ≠ ' ' <;>
      simp [hsep, List.count_append, hinv, hp]
  · rw [appendGo_mismatch q frag args _ _ rfl rfl hp] at hok
    cases hok

theorem appendAll_parity (steps : List (Str × List Val)) :
    ∀ (q : Query), q.placeholderCount = q.args.length →
      (∀ q2, q.appendAll steps = .ok q2 → q2.placeholderCount = q2.args.length) ∧
      (∀ msg qe, q.appendAll steps = .error (msg, qe) →
        qe.placeholderCount = qe.args.length) := by
  induction steps with
  | nil =>
    intro q hinv
    constructor
    · intro q2 h
      simp only [Query.appendAll] at h
      cases h
      exact hinv
    · intro msg qe h
      simp [Query.appendAll] at h
  | cons step rest ih =>
    intro q hinv
    obtain ⟨frag, args⟩ := step
    by_cases hp : frag.count '?' = args.length
    · have hrun := appendGo_ok_eq q frag args hp
      have hnext := append_preserves_parity q frag args _ hinv hrun
      constructor
      · intro q2 h
        simp only [Query.appendAll, hrun] at h
        exact (ih _ hnext).1 q2 h
      · intro msg qe h
        simp only [Query.appendAll, hrun] at h
        exact (ih _ hnext).2 msg qe h
    · have hrun := appendGo_mismatch q frag args _ _ rfl rfl hp
      constructor
      · intro q2 h
        simp [Query.appendAll, hrun] at h
      · intro msg qe h
        simp only [Query.appendAll, hrun, Except.error.injEq, Prod.mk.injEq] at h
        first
        | exact h.2 ▸ hinv
        | exact h.2.symm ▸ hinv

/-- C2: placeholder/argument parity. A mismatched `Append` panics with a
message stating the wanted and actual argument counts and leaves the
receiver untouched (the error carries the unmutated state); a matched
`Append` preserves the invariant that the buffer's total `'?'` count equals
the accumulated argument count; hence over any sequence of `Append` calls on
a fresh query the invariant holds at every outcome, including the state at
fault time of a panicking call. -/
theorem append_parity_invariant :
    (∀ (q : Query) (frag : Str) (args : List Val) (w g : Nat),
      w = frag.count '?' → g = args.length → w ≠ g →
      q.appendGo frag args = .error (s!"want {w} args, got {g}", q)) ∧
    (∀ (q : Query) (frag : Str) (args : List Val) (q2 : Query),
      q.placeholderCount = q.args.length → q.appendGo frag args = .ok q2 →
      q2.placeholderCount = q2.args.length) ∧
    (∀ (steps : List (Str × List Val)) (q2 : Query),
      Query.zero.appendAll steps = .ok q2 →
      q2.placeholderCount = q2.args.length) ∧
    (∀ (steps : List (Str × List Val)) (msg : String) (qe : Query),
      Query.zero.appendAll steps = .error (msg, qe) →
      qe.placeholderCount = qe.args.length) := by
  have hzero : Query.zero.placeholderCount = Query.zero.args.length := by
    simp [Query.zero, Query.placeholderCount]
  refine ⟨?_, append_preserves_parity, ?_, ?_⟩
  · intro q frag args w g hw hg hne
    exact appendGo_mismatch q frag args w g hw hg hne
  · intro steps q2 h
    exact (appendAll_parity steps Query.zero hzero).1 q2 h
  · intro steps msg qe h
    exact (appendAll_parity steps Query.zero hzero).2 msg qe h

/-- Witness for C2 at the test's panic case: appending
`one=?, two=?, three=?` with only two arguments faults with
`want 3 args, got 2` and leaves the zero-value receiver unchanged. -/
theorem append_parity_invariant_witness :
    Query.zero.appendGo "one=?, two=?, three=?".toList
        [Val.scalar "1", Val.scalar "2"] =
      .error ("want 3 args, got 2", Query.zero) := by
  have h := append_parity_invariant.1 Query.zero "one=?, two=?, three=?".toList
    [Val.scalar "1", Val.scalar "2"] 3 2 (by rfl) (by rfl) (by decide)
  exact h

/-- Counterexample to C7 as stated: the buffer `a` followed by a newline
ends in whitespace, yet appending `b` still inserts a space separator — the
source compares the tracked last byte against the space character only, not
against whitespace in general, producing `a\n b` where the claim requires
`a\nb`. -/
theorem append_separator_counterexample :
    Query.zero.appendGo "a\n".toList [] = .ok ⟨some "a\n".toList, [], '\n'⟩ ∧
    (Query.mk (some "a\n".toList) [] '\n').appendGo "b".toList [] =
      .ok ⟨some "a\n b".toList, [], 'b'⟩ ∧
    "a\n b".toList ≠ "a\nb".toList := by
  refine ⟨by rfl, by rfl, by decide⟩

/-- C7 (amended): on a successful `Append`, the fragment is concatenated
onto the buffer with exactly one space separator unless the buffer is empty
or the tracked `lastByte` — the final byte of the most recently appended
non-empty fragment — is the space character `' '` (not general whitespace);
the arguments are appended to the flat argument list in order; and
`lastByte` becomes the fragment's last character when the fragment is
non-empty. -/
theorem append_separator_amended (q : Query) (frag : Str) (args : List Val) (q2 : Query)
    (hok : q.appendGo frag args = .ok q2) :
    q2.query = some ((q.query.getD []) ++
      (if 0 < (q.query.getD []).length ∧ q.lastByte ≠ ' ' then [' '] else []) ++ frag) ∧
    q2.args = q.args ++ args ∧
    q2.lastByte = (if 0 < frag.length then frag.getLastD q.lastByte else q.lastByte) := by
  by_cases hp : frag.count '?' = args.length
  · rw [appendGo_ok_eq q frag args hp] at hok
    cases hok
    exact ⟨rfl, rfl, rfl⟩
  · rw [appendGo_mismatch q frag args _ _ rfl rfl hp] at hok
    cases hok

/-- Witness for C7 (amended), from the package's example: appending
`AND name = ?` to a buffer holding `SELECT * FROM users WHERE 1` inserts
exactly one space, and the argument is appended. -/
theorem append_separator_amended_witness :
    (Query.mk (some "SELECT * FROM users WHERE 1 AND name = ?".toList)
        [Val.scalar "alice"] '?').query =
      some ((Query.mk (some "SELECT * FROM users WHERE 1".toList) [] '1').query.getD [] ++
        (if 0 < ((Query.mk (some "SELECT * FROM users WHERE 1".toList) [] '1').query.getD []).length ∧
            (Query.mk (some "SELECT * FROM users WHERE 1".toList) [] '1').lastByte ≠ ' '
          then [' '] else []) ++ "AND name = ?".toList) ∧
    (Query.mk (some "SELECT * FROM users WHERE 1 AND name = ?".toList)
        [Val.scalar "alice"] '?').args =
      (Query.mk (some "SELECT * FROM users WHERE 1".toList) [] '1').args ++
        [Val.scalar "alice"] := by
  have h := append_separator_amended
    (Query.mk (some "SELECT * FROM users WHERE 1".toList) [] '1')
    "AND name = ?".toList [Val.scalar "alice"]
    (Query.mk (some "SELECT * FROM users WHERE 1 AND name = ?".toList)
      [Val.scalar "alice"] '?') (by rfl)
  exact ⟨h.1, h.2.1⟩

/-- C9: calling `SQL()` on a zero-value Query on which `Append` was never
called dereferences the nil buffer and panics; it does not return any
`(text, args)` pair, in particular not empty text with empty arguments.
The case is reachable through the public interface: `UpdateSQL` of an item
all of whose columns are generated performs no `Append` and returns the
zero-value Query (nil buffer). -/
theorem zero_query_sql_panics :
    Query.zero.SQLgo = .error nilDerefMsg ∧
    (∀ (t : Str) (a : List Val), Query.zero.SQLgo ≠ .ok (t, a)) ∧
    UpdateSQLgo ⟨fun _ => true, [⟨"id".toList, Val.scalar "1"⟩]⟩ = .ok Query.zero ∧
    Query.zero.query = none := by
  refine ⟨?_, ?_, ?_, rfl⟩
  · simp [Query.SQLgo, sqlOf, Query.zero]
  · intro t a
    simp [Query.SQLgo, sqlOf, Query.zero]
  · rfl

theorem intercalate_cons_flatMap (sep e : Str) (es : List Str) :
    List.intercalate sep (e :: es) = e ++ es.flatMap (fun y => sep ++ y) := by
  induction es generalizing e with
  | nil => simp [List.intercalate]
  | cons f fs ih =>
    have h2 : List.intercalate sep (e :: f :: fs) =
        e ++ sep ++ List.intercalate sep (f :: fs) := by
      simp [List.intercalate, List.intersperse]
    rw [h2, ih f]
    simp [List.flatMap_cons]

theorem appendGo_entry (b : Query) (buf frag : Str) (v : Val)
    (hbuf : b.query = some buf) (hlen : 0 < buf.length) (hlb : b.lastByte = '?')
    (hfrag : frag.count '?' = 1) (hfl : 0 < frag.length)
    (hfront : frag.getLastD b.lastByte = '?') :
    b.appendGo frag [v] = .ok ⟨some (buf ++ [' '] ++ frag), b.args ++ [v], '?'⟩ := by
  have h := appendGo_ok_eq b frag [v] (by simpa using hfrag)
  rw [hbuf] at h
  simp only [Option.getD_some] at h
  rw [if_pos ⟨hlen, by rw [hlb]; decide⟩, if_pos hfl, hfront] at h
  exact h

theorem updateLoop_set (item : Updatable) (vs : List NamedArg) :
    ∀ (b : Query) (buf : Str), (∀ v ∈ vs, v.name.count '?' = 0) →
      b.query = some buf → 0 < buf.length → b.lastByte = '?' →
      updateLoop item vs true b = .ok ⟨some (buf ++
          (vs.filter (fun v => !item.isGenerated v.name)).flatMap
            (fun v => " , ".toList ++ v.name ++ "=?".toList)),
        b.args ++ (vs.filter (fun v => !item.isGenerated v.name)).map NamedArg.value,
        '?'⟩ := by
  induction vs with
  | nil =>
    intro b buf hq hbuf hlen hlb
    obtain ⟨bq, bargs, blb⟩ := b
    simp only at hbuf hlb
    subst hbuf; subst hlb
    simp [updateLoop]
  | cons v rest ih =>
    intro b buf hq hbuf hlen hlb
    by_cases hgen : item.isGenerated v.name
    · have := ih b buf (fun w hw => hq w (List.mem_cons_of_mem v hw)) hbuf hlen hlb
      simp [updateLoop, hgen, this]
    · have h0 := hq v (List.mem_cons_self v rest)
      have hfrag : (", ".toList ++ v.name ++ "=?".toList).count '?' = 1 := by
        have hc1 : (", ".toList : Str).count '?' = 0 := by decide
        have hc2 : ("=?".toList : Str).count '?' = 1 := by decide
        simp [List.count_append, hc1, hc2, h0]
      have hlast : (", ".toList ++ v.name ++ "=?".toList).getLastD b.lastByte = '?' := by
        have hsplit : ", ".toList ++ v.name ++ "=?".toList =
            (", ".toList ++ v.name ++ ['=']) ++ ['?'] := by simp
        rw [hsplit, List.getLastD_concat]
      have hentry := appendGo_entry b buf (", ".toList ++ v.name ++ "=?".toList) v.value
        hbuf hlen hlb hfrag (by simp) hlast
      have hnext := ih ⟨some (buf ++ [' '] ++ (", ".toList ++ v.name ++ "=?".toList)),
          b.args ++ [v.value], '?'⟩
        (buf ++ [' '] ++ (", ".toList ++ v.name ++ "=?".toList))
        (fun w hw => hq w (List.mem_cons_of_mem v hw)) rfl (by simp) rfl
      have hglue : ∀ l : Str, ([' '] : Str) ++ (", ".toList ++ l) = " , ".toList ++ l := by
        intro l
        rw [← List.append_assoc]
        have hg : ([' '] : Str) ++ ", ".toList = " , ".toList := by decide
        rw [hg]
      simp only [updateLoop, hgen, Bool.false_eq_true, if_false, if_true, hentry, hnext]
      simp [List.filter_cons, hgen, List.flatMap_cons, List.append_assoc, hglue]

theorem flatMap_map_entry (sep : Str) (l : List NamedArg) :
    (l.map (fun w => w.name ++ "=?".toList)).flatMap (fun y => sep ++ y) =
      l.flatMap (fun w => sep ++ w.name ++ "=?".toList) := by
  induction l with
  | nil => simp
  | cons w ws ih =>
    simp only [List.map_cons, List.flatMap_cons, ih, List.append_assoc]

theorem updateLoop_zero (item : Updatable) (vs : List NamedArg)
    (hq : ∀ v ∈ vs, v.name.count '?' = 0) :
    updateLoop item vs false Query.zero =
      .ok (match vs.filter (fun v => !item.isGenerated v.name) with
        | [] => Query.zero
        | v :: rest => ⟨some (List.intercalate " , ".toList
            ((v :: rest).map (fun w => w.name ++ "=?".toList))),
          (v :: rest).map NamedArg.value, '?'⟩) := by
  induction vs with
  | nil => simp [updateLoop]
  | cons v rest ih =>
    by_cases hgen : item.isGenerated v.name
    · have := ih (fun w hw => hq w (List.mem_cons_of_mem v hw))
      simp only [updateLoop, hgen, if_true]
      rw [this]
      simp [List.filter_cons, hgen]
    · have h0 := hq v (List.mem_cons_self v rest)
      have hfrag : (v.name ++ "=?".toList).count '?' = 1 := by
        have hc2 : ("=?".toList : Str).count '?' = 1 := by decide
        simp [List.count_append, hc2, h0]
      have hlast : (v.name ++ "=?".toList).getLastD (Char.ofNat 0) = '?' := by
        have hsplit : v.name ++ "=?".toList = (v.name ++ ['=']) ++ ['?'] := by simp
        rw [hsplit, List.getLastD_concat]
      have hrun2 : Query.zero.appendGo (v.name ++ "=?".toList) [v.value] =
          .ok ⟨some (v.name ++ "=?".toList), [v.value], '?'⟩ := by
        rw [appendGo_ok_eq Query.zero (v.name ++ "=?".toList) [v.value] (by simpa using hfrag)]
        simp [Query.zero, hlast]
      have hnext := updateLoop_set item rest
        ⟨some (v.name ++ "=?".toList), [v.value], '?'⟩ (v.name ++ "=?".toList)
        (fun w hw => hq w (List.mem_cons_of_mem v hw)) rfl (by simp) rfl
      simp only [updateLoop, hgen, Bool.false_eq_true, if_false, List.nil_append]
      rw [hrun2]
      simp only [hnext]
      simp only [List.filter_cons, hgen, Bool.not_false, if_true]
      rw [List.map_cons, intercalate_cons_flatMap, flatMap_map_entry]
      simp [List.append_assoc]

/-- Counterexample to C4 as stated: for the test's Task record (generated
primary key `id`, then `name` and `age`), the fragment the update builder
produces is `name=? , age=?` — the entries are joined by a space, a comma
and a space, because `Append` inserts a space separator before the `", "`
prefix — and not the claimed exact text `name=?, age=?`. -/
theorem update_sql_counterexample :
    UpdateSQLgo ⟨fun s => s == "id".toList,
        [⟨"id".toList, Val.scalar "1"⟩, ⟨"name".toList, Val.scalar "alice"⟩,
         ⟨"age".toList, Val.scalar "31"⟩]⟩ =
      .ok ⟨some "name=? , age=?".toList, [Val.scalar "alice", Val.scalar "31"], '?'⟩ ∧
    "name=? , age=?".toList ≠ "name=?, age=?".toList :=
  ⟨by rfl, by decide⟩

/-- C4 (amended): for every Updatable item whose column names contain no
`'?'`, `UpdateSQL` produces one `col=?` entry per non-generated column, in
the item's declared column order, joined by `" , "` (space, comma, space —
not the bare `", "` of the claim), with exactly one argument per such
column; a generated column contributes neither an entry nor an argument;
with no non-generated column at all the builder stays the zero value. -/
theorem update_sql_fragment_amended (item : Updatable)
    (hq : ∀ v ∈ item.values, v.name.count '?' = 0) :
    ∃ q, UpdateSQLgo item = .ok q ∧
      q.args = (item.values.filter (fun v => !item.isGenerated v.name)).map NamedArg.value ∧
      q.query = (match (item.values.filter (fun v => !item.isGenerated v.name)).map
          (fun v => v.name ++ "=?".toList) with
        | [] => none
        | e :: es => some (List.intercalate " , ".toList (e :: es))) := by
  have h := updateLoop_zero item item.values hq
  cases hfil : item.values.filter (fun v => !item.isGenerated v.name) with
  | nil =>
    rw [hfil] at h
    exact ⟨Query.zero, h, by simp [hfil, Query.zero], by simp [hfil, Query.zero]⟩
  | cons v rest =>
    rw [hfil] at h
    refine ⟨_, h, ?_, ?_⟩
    · simp [hfil]
    · simp [hfil]

/-- Witness for C4 (amended) at the test's Task record: columns `id` (the
generated primary key), `name` and `age`; no `id=?` entry and no `id`
argument appears. -/
theorem update_sql_fragment_amended_witness :
    ∃ q, UpdateSQLgo ⟨fun s => s == "id".toList,
        [⟨"id".toList, Val.scalar "7"⟩, ⟨"name".toList, Val.scalar "bob"⟩,
         ⟨"age".toList, Val.scalar "25"⟩]⟩ = .ok q ∧
      q.args = (([⟨"id".toList, Val.scalar "7"⟩, ⟨"name".toList, Val.scalar "bob"⟩,
          ⟨"age".toList, Val.scalar "25"⟩] : List NamedArg).filter
            (fun v => !(v.name == "id".toList))).map NamedArg.value ∧
      q.query = (match (([⟨"id".toList, Val.scalar "7"⟩, ⟨"name".toList, Val.scalar "bob"⟩,
          ⟨"age".toList, Val.scalar "25"⟩] : List NamedArg).filter
            (fun v => !(v.name == "id".toList))).map (fun v => v.name ++ "=?".toList) with
        | [] => none
        | e :: es => some (List.intercalate " , ".toList (e :: es))) :=
  update_sql_fragment_amended ⟨fun s => s == "id".toList,
    [⟨"id".toList, Val.scalar "7"⟩, ⟨"name".toList, Val.scalar "bob"⟩,
     ⟨"age".toList, Val.scalar "25"⟩]⟩ (by decide)

theorem count_flatMap_replicate (c : Char) (sep g : Str) (n : Nat) :
    ((List.replicate n g).flatMap (fun y => sep ++ y)).count c =
      n * (sep.count c + g.count c) := by
  induction n with
  | zero => simp
  | succ m ih =>
    simp only [List.replicate_succ, List.flatMap_cons, List.count_append, ih]
    ring

theorem count_intercalate_replicate (c : Char) (sep g : Str) (hsep : sep.count c = 0)
    (n : Nat) : (List.intercalate sep (List.replicate n g)).count c = n * g.count c := by
  cases n with
  | zero => simp [List.intercalate]
  | succ m =>
    rw [List.replicate_succ, intercalate_cons_flatMap, List.count_append,
      count_flatMap_replicate c sep g m, hsep]
    ring

theorem count_flatMap_zero (c : Char) (sep : Str) (hsep : sep.count c = 0)
    (l : List Str) (hl : ∀ s ∈ l, s.count c = 0) :
    (l.flatMap (fun y => sep ++ y)).count c = 0 := by
  induction l with
  | nil => simp
  | cons e es ih =>
    simp only [List.flatMap_cons, List.count_append, hsep,
      hl e (List.mem_cons_self e es), ih (fun s hs => hl s (List.mem_cons_of_mem e hs))]

theorem count_intercalate_zero (c : Char) (sep : Str) (hsep : sep.count c = 0)
    (l : List Str) (hl : ∀ s ∈ l, s.count c = 0) :
    (List.intercalate sep l).count c = 0 := by
  cases l with
  | nil => simp [List.intercalate]
  | cons e es =>
    rw [intercalate_cons_flatMap, List.count_append, hl e (List.mem_cons_self e es),
      count_flatMap_zero c sep hsep es (fun s hs => hl s (List.mem_cons_of_mem e hs))]

theorem length_flatMap_values (items : List Insertable) (k : Nat)
    (hshape : ∀ item ∈ items, (nonGenerated item).length = k) :
    (items.flatMap (fun item => (nonGenerated item).map NamedArg.value)).length =
      items.length * k := by
  induction items with
  | nil => simp
  | cons i is ih =>
    simp only [List.flatMap_cons, List.length_append, List.length_cons, List.length_map,
      hshape i (List.mem_cons_self i is), ih (fun j hj => hshape j (List.mem_cons_of_mem i hj))]
    ring

/-- C3: `InsertSQL` on a non-empty item list whose column names are
`'?'`-free and whose items share the first item's non-generated column
count. The column list and placeholder-group size come from the first item
only; the fragment is `(col1, col2, ...) VALUES (?, ?), (?, ?), ...` with
one group per item, each of the first item's size; the argument list is the
per-item non-generated values, item-major, column-minor. -/
theorem insert_sql_correct (first : Insertable) (rest : List Insertable)
    (hnames : first.values.all (fun v => v.name.count '?' == 0) = true)
    (hshape : (first :: rest).all
      (fun item => (nonGenerated item).length == (nonGenerated first).length) = true) :
    ∃ q, InsertSQLgo (first :: rest) = .ok q ∧
      q.query = some ("(".toList ++
        List.intercalate ", ".toList ((nonGenerated first).map NamedArg.name) ++
        ") VALUES ".toList ++
        List.intercalate ", ".toList (List.replicate (first :: rest).length
          ("(".toList ++ List.intercalate ", ".toList
            (List.replicate (nonGenerated first).length ("?".toList)) ++ ")".toList))) ∧
      q.args = (first :: rest).flatMap
        (fun item => (nonGenerated item).map NamedArg.value) := by
  simp only [List.all_eq_true, beq_iff_eq] at hnames hshape
  have hsep : (", ".toList : Str).count '?' = 0 := by decide
  have hcolnames : ∀ s ∈ (nonGenerated first).map NamedArg.name, s.count '?' = 0 := by
    intro s hs
    obtain ⟨v, hv, rfl⟩ := List.mem_map.1 hs
    exact hnames v (List.mem_of_mem_filter hv)
  have hgroup : ("(".toList ++ List.intercalate ", ".toList
      (List.replicate (nonGenerated first).length ("?".toList)) ++ ")".toList).count '?' =
      (nonGenerated first).length := by
    have h1 : ("(".toList : Str).count '?' = 0 := by decide
    have h2 : (")".toList : Str).count '?' = 0 := by decide
    have h3 : ("?".toList : Str).count '?' = 1 := by decide
    rw [List.count_append, List.count_append, h1, h2,
      count_intercalate_replicate _ _ _ hsep, h3]
    ring
  have hfragcount : ("(".toList ++
      List.intercalate ", ".toList ((nonGenerated first).map NamedArg.name) ++
      ") VALUES ".toList ++
      List.intercalate ", ".toList (List.replicate (first :: rest).length
        ("(".toList ++ List.intercalate ", ".toList
          (List.replicate (nonGenerated first).length ("?".toList)) ++ ")".toList))).count '?' =
      ((first :: rest).flatMap
        (fun item => (nonGenerated item).map NamedArg.value)).length := by
    have h1 : ("(".toList : Str).count '?' = 0 := by decide
    have h4 : (") VALUES ".toList : Str).count '?' = 0 := by decide
    rw [List.count_append, List.count_append, List.count_append, h1, h4,
      count_intercalate_zero _ _ hsep _ hcolnames,
      count_intercalate_replicate _ _ _ hsep, hgroup,
      length_flatMap_values _ _ hshape]
    ring
  have hfl : 0 < ("(".toList ++
      List.intercalate ", ".toList ((nonGenerated first).map NamedArg.name) ++
      ") VALUES ".toList ++
      List.intercalate ", ".toList (List.replicate (first :: rest).length
        ("(".toList ++ List.intercalate ", ".toList
          (List.replicate (nonGenerated first).length ("?".toList)) ++ ")".toList))).length := by
    simp
  have hrun2 : NewQueryGo
      ("(".toList ++
        List.intercalate ", ".toList ((nonGenerated first).map NamedArg.name) ++
        ") VALUES ".toList ++
        List.intercalate ", ".toList (List.replicate (first :: rest).length
          ("(".toList ++ List.intercalate ", ".toList
            (List.replicate (nonGenerated first).length ("?".toList)) ++ ")".toList)))
      ((first :: rest).flatMap (fun item => (nonGenerated item).map NamedArg.value)) =
      .ok ⟨some ("(".toList ++
        List.intercalate ", ".toList ((nonGenerated first).map NamedArg.name) ++
        ") VALUES ".toList ++
        List.intercalate ", ".toList (List.replicate (first :: rest).length
          ("(".toList ++ List.intercalate ", ".toList
            (List.replicate (nonGenerated first).length ("?".toList)) ++ ")".toList))),
        (first :: rest).flatMap (fun item => (nonGenerated item).map NamedArg.value),
        ("(".toList ++
          List.intercalate ", ".toList ((nonGenerated first).map NamedArg.name) ++
          ") VALUES ".toList ++
          List.intercalate ", ".toList (List.replicate (first :: rest).length
            ("(".toList ++ List.intercalate ", ".toList
              (List.replicate (nonGenerated first).length ("?".toList)) ++
              ")".toList))).getLastD (Char.ofNat 0)⟩ := by
    rw [NewQueryGo, appendGo_ok_eq Query.zero _ _ hfragcount]
    simp only [Query.zero, Option.getD_none, List.length_nil, Nat.lt_irrefl, false_and,
      if_false, List.nil_append, if_pos hfl]
  have hfinal : InsertSQLgo (first :: rest) =
      .ok ⟨some ("(".toList ++
        List.intercalate ", ".toList ((nonGenerated first).map NamedArg.name) ++
        ") VALUES ".toList ++
        List.intercalate ", ".toList (List.replicate (first :: rest).length
          ("(".toList ++ List.intercalate ", ".toList
            (List.replicate (nonGenerated first).length ("?".toList)) ++ ")".toList))),
        (first :: rest).flatMap (fun item => (nonGenerated item).map NamedArg.value),
        ("(".toList ++
          List.intercalate ", ".toList ((nonGenerated first).map NamedArg.name) ++
          ") VALUES ".toList ++
          List.intercalate ", ".toList (List.replicate (first :: rest).length
            ("(".toList ++ List.intercalate ", ".toList
              (List.replicate (nonGenerated first).length ("?".toList)) ++
              ")".toList))).getLastD (Char.ofNat 0)⟩ := by
    simp only [InsertSQLgo, List.length_map]
    simp only [nonGenerated, List.length_map] at hrun2
    rw [hrun2]
    simp only [nonGenerated]
  exact ⟨_, hfinal, rfl, rfl⟩

/-- Witness for C3 at the test's two Task records
(`{name: alice, age: 30}` and `{name: bob, age: 25}`, `id` generated). -/
theorem insert_sql_correct_witness :
    ∃ q, InsertSQLgo [⟨fun s => s == "id".toList,
        [⟨"id".toList, Val.scalar "0"⟩, ⟨"name".toList, Val.scalar "alice"⟩,
         ⟨"age".toList, Val.scalar "30"⟩]⟩,
      ⟨fun s => s == "id".toList,
        [⟨"id".toList, Val.scalar "0"⟩, ⟨"name".toList, Val.scalar "bob"⟩,
         ⟨"age".toList, Val.scalar "25"⟩]⟩] = .ok q ∧
      q.query = some ("(".toList ++
        List.intercalate ", ".toList ((nonGenerated ⟨fun s => s == "id".toList,
          [⟨"id".toList, Val.scalar "0"⟩, ⟨"name".toList, Val.scalar "alice"⟩,
           ⟨"age".toList, Val.scalar "30"⟩]⟩).map NamedArg.name) ++
        ") VALUES ".toList ++
        List.intercalate ", ".toList (List.replicate
          ([⟨fun s => s == "id".toList,
            [⟨"id".toList, Val.scalar "0"⟩, ⟨"name".toList, Val.scalar "alice"⟩,
             ⟨"age".toList, Val.scalar "30"⟩]⟩,
           ⟨fun s => s == "id".toList,
            [⟨"id".toList, Val.scalar "0"⟩, ⟨"name".toList, Val.scalar "bob"⟩,
             ⟨"age".toList, Val.scalar "25"⟩]⟩] : List Insertable).length
          ("(".toList ++ List.intercalate ", ".toList
            (List.replicate (nonGenerated ⟨fun s => s == "id".toList,
              [⟨"id".toList, Val.scalar "0"⟩, ⟨"name".toList, Val.scalar "alice"⟩,
               ⟨"age".toList, Val.scalar "30"⟩]⟩).length ("?".toList)) ++ ")".toList))) ∧
      q.args = ([⟨fun s => s == "id".toList,
        [⟨"id".toList, Val.scalar "0"⟩, ⟨"name".toList, Val.scalar "alice"⟩,
         ⟨"age".toList, Val.scalar "30"⟩]⟩,
       ⟨fun s => s == "id".toList,
        [⟨"id".toList, Val.scalar "0"⟩, ⟨"name".toList, Val.scalar "bob"⟩,
         ⟨"age".toList, Val.scalar "25"⟩]⟩] : List Insertable).flatMap
        (fun item => (nonGenerated item).map NamedArg.value) :=
  insert_sql_correct
    ⟨fun s => s == "id".toList,
      [⟨"id".toList, Val.scalar "0"⟩, ⟨"name".toList, Val.scalar "alice"⟩,
       ⟨"age".toList, Val.scalar "30"⟩]⟩
    [⟨fun s => s == "id".toList,
      [⟨"id".toList, Val.scalar "0"⟩, ⟨"name".toList, Val.scalar "bob"⟩,
       ⟨"age".toList, Val.scalar "25"⟩]⟩]
    (by decide) (by rfl)

/-- C5: single-row fetch. If the query executes successfully but yields zero
result rows, `ScanRow` returns the distinguished no-rows sentinel
(`sql.ErrNoRows`), which is distinct from every other failure class; when at
least one row exists, it delegates to the destination's `ScanFrom` with the
row's column names and returns exactly that outcome. -/
theorem scan_row_no_rows_sentinel {Row : Type} :
    (∀ (db : Str → List Val → Except DBError (RowsModel Row))
        (scanFrom : List Str → Row → Except DBError Unit)
        (query text : Str) (args fargs : List Val) (q : Query) (rows : RowsModel Row),
      NewQueryGo query args = .ok q → q.SQLgo = .ok (text, fargs) →
      db text fargs = .ok rows → rows.data = [] →
      ScanRowGo db scanFrom query args = .ok (some DBError.noRows)) ∧
    (∀ (msg : String), DBError.noRows ≠ DBError.connFail msg ∧
      DBError.noRows ≠ DBError.colsFail msg ∧
      DBError.noRows ≠ DBError.scanFail msg) ∧
    (∀ (db : Str → List Val → Except DBError (RowsModel Row))
        (scanFrom : List Str → Row → Except DBError Unit)
        (query text : Str) (args fargs : List Val) (q : Query) (rows : RowsModel Row)
        (r : Row) (rs : List Row) (columns : List Str),
      NewQueryGo query args = .ok q → q.SQLgo = .ok (text, fargs) →
      db text fargs = .ok rows → rows.data = r :: rs → rows.cols = .ok columns →
      ScanRowGo db scanFrom query args = .ok (match scanFrom columns r with
        | .error e => some e
        | .ok _ => none)) := by
  refine ⟨?_, ?_, ?_⟩
  · intro db scanFrom query text args fargs q rows hnq hsql hdb hdata
    simp only [ScanRowGo, hnq, hsql, hdb, hdata]
  · intro msg
    exact ⟨by simp, by simp, by simp⟩
  · intro db scanFrom query text args fargs q rows r rs columns hnq hsql hdb hdata hcols
    simp only [ScanRowGo, hnq, hsql, hdb, hdata, hcols]
    cases hs : scanFrom columns r <;> simp [hs]

/-- Witness for C5: a database returning a successful but empty row set
makes `ScanRow` return the no-rows sentinel. -/
theorem scan_row_no_rows_sentinel_witness :
    @ScanRowGo Unit (fun _ _ => .ok ⟨.ok [], [], none⟩) (fun _ _ => .ok ())
      "SELECT 1".toList [] = .ok (some DBError.noRows) :=
  scan_row_no_rows_sentinel.1 (fun _ _ => .ok ⟨.ok [], [], none⟩) (fun _ _ => .ok ())
    "SELECT 1".toList "SELECT 1".toList [] []
    ⟨some "SELECT 1".toList, [], '1'⟩ ⟨.ok [], [], none⟩
    (by rfl) (by simp [Query.SQLgo, sqlOf]) (by rfl) (by rfl)

theorem iterLoop_always_continue {Row T : Type} [Inhabited T]
    (scanFrom : List Str → Row → Except DBError T) (columns : List Str) :
    ∀ (data : List Row) (n : Nat),
      iterLoop scanFrom columns (fun _ => true) data n =
        (data.map (fun r => match scanFrom columns r with
          | .error e => (default, some e)
          | .ok t => (t, none)), true) := by
  intro data
  induction data with
  | nil => intro n; simp [iterLoop]
  | cons r rest ih =>
    intro n
    cases hs : scanFrom columns r <;>
      simp [iterLoop, hs, ih (n + 1)]

/-- C10: lazy iteration. A per-row scan failure is not terminal: the loop
yields `(zero, err)` for the failed row and, when the consumer continues,
resumes with the remaining rows; with an always-continuing consumer the
yielded sequence is exactly one pair per row — failed rows as
`(zero, err)`, scanned rows as `(row, nil)` — followed by one final
`(zero, err)` pair exactly when the post-loop `rows.Err()` is non-nil. Only
a query-execution error or a column-retrieval error ends the sequence
immediately after yielding that single error pair. -/
theorem iter_rows_scan_failure_not_terminal {Row T : Type} [Inhabited T] :
    (∀ (scanFrom : List Str → Row → Except DBError T) (columns : List Str)
        (r : Row) (rest : List Row) (n : Nat) (e : DBError) (c : Nat → Bool),
      scanFrom columns r = .error e → c n = true →
      iterLoop scanFrom columns c (r :: rest) n =
        ((default, some e) :: (iterLoop scanFrom columns c rest (n + 1)).1,
          (iterLoop scanFrom columns c rest (n + 1)).2)) ∧
    (∀ (e : DBError) (scanFrom : List Str → Row → Except DBError T) (c : Nat → Bool),
      @iterRowsGo Row T _ (.error e) scanFrom c = [(default, some e)]) ∧
    (∀ (rows : RowsModel Row) (e : DBError)
        (scanFrom : List Str → Row → Except DBError T) (c : Nat → Bool),
      rows.cols = .error e →
      @iterRowsGo Row T _ (.ok rows) scanFrom c = [(default, some e)]) ∧
    (∀ (rows : RowsModel Row) (columns : List Str)
        (scanFrom : List Str → Row → Except DBError T),
      rows.cols = .ok columns →
      @iterRowsGo Row T _ (.ok rows) scanFrom (fun _ => true) =
        rows.data.map (fun r => match scanFrom columns r with
          | .error e => (default, some e)
          | .ok t => (t, none)) ++
        (match rows.errRes with
          | some e => [(default, some e)]
          | none => [])) := by
  refine ⟨?_, ?_, ?_, ?_⟩
  · intro scanFrom columns r rest n e c hs hc
    simp [iterLoop, hs, hc]
  · intro e scanFrom c
    simp [iterRowsGo]
  · intro rows e scanFrom c hcols
    simp [iterRowsGo, hcols]
  · intro rows columns scanFrom hcols
    simp only [iterRowsGo, hcols, iterLoop_always_continue, if_true]
    cases rows.errRes <;> simp

/-- Witness for C10: two rows, the first failing to scan and the second
succeeding — the failure is yielded as a `(zero, error)` pair and iteration
resumes and yields the second row. -/
theorem iter_rows_scan_failure_not_terminal_witness :
    @iterRowsGo Bool Nat _ (.ok ⟨.ok [], [false, true], none⟩)
      (fun _ r => if r then .ok 1 else .error (DBError.scanFail "bad"))
      (fun _ => true) =
      [(0, some (DBError.scanFail "bad")), (1, none)] := by
  have h := (@iter_rows_scan_failure_not_terminal Bool Nat _).2.2.2
    ⟨.ok [], [false, true], none⟩ []
    (fun _ r => if r then .ok 1 else .error (DBError.scanFail "bad")) (by rfl)
  rw [h]
  rfl

/-- C8: `StmtCache.Close` attempts every statement's release — the
collection loop visits the whole list regardless of failures, gathering
exactly the failed releases in order; if every release succeeds it returns
nil; if any release fails it returns one combined failure whose message
aggregates all collected failure messages. -/
theorem stmt_cache_close_aggregates :
    (∀ (stmts : List (Except String Unit)),
      closeLoop stmts = stmts.filterMap (fun r => match r with
        | .error e => some e
        | .ok _ => none)) ∧
    (∀ (stmts : List (Except String Unit)), (∀ r ∈ stmts, r = .ok ()) →
      StmtCacheCloseGo stmts = none) ∧
    (∀ (stmts : List (Except String Unit)) (e : String), Except.error e ∈ stmts →
      StmtCacheCloseGo stmts = some ("closing statements: " ++
        String.intercalate "\n" (closeLoop stmts)) ∧
      e ∈ closeLoop stmts) := by
  have hfil : ∀ (stmts : List (Except String Unit)),
      closeLoop stmts = stmts.filterMap (fun r => match r with
        | .error e => some e
        | .ok _ => none) := by
    intro stmts
    induction stmts with
    | nil => rfl
    | cons r rest ih =>
      cases r with
      | error e => simp [closeLoop, List.filterMap_cons, ih]
      | ok u => cases u; simp [closeLoop, List.filterMap_cons, ih]
  have hmem : ∀ (stmts : List (Except String Unit)) (e : String),
      Except.error e ∈ stmts → e ∈ closeLoop stmts := by
    intro stmts e hm
    induction stmts with
    | nil => cases hm
    | cons r rest ih =>
      cases List.mem_cons.1 hm with
      | inl heq => rw [← heq]; simp [closeLoop]
      | inr htl =>
        cases r with
        | error f => simp [closeLoop, ih htl]
        | ok u => cases u; simpa [closeLoop] using ih htl
  refine ⟨hfil, ?_, ?_⟩
  · intro stmts hall
    have : closeLoop stmts = [] := by
      rw [hfil]
      rw [List.filterMap_eq_nil]
      intro r hr
      rw [hall r hr]
    simp [StmtCacheCloseGo, this]
  · intro stmts e hm
    have he := hmem stmts e hm
    constructor
    · cases hcl : closeLoop stmts with
      | nil => rw [hcl] at he; cases he
      | cons f fs => simp [StmtCacheCloseGo, hcl]
    · exact he

/-- Witness for C8: three cached statements whose releases fail, succeed and
fail — both failures appear aggregated in the single combined message. -/
theorem stmt_cache_close_aggregates_witness :
    StmtCacheCloseGo [Except.error "close a", Except.ok (), Except.error "close b"] =
      some "closing statements: close a\nclose b" ∧
    "close b" ∈ closeLoop [Except.error "close a", Except.ok (), Except.error "close b"] := by
  have h := stmt_cache_close_aggregates.2.2
    [Except.error "close a", Except.ok (), Except.error "close b"] "close b" (by simp)
  refine ⟨?_, h.2⟩
  rw [h.1]
  rfl

theorem set_get_self : ∀ (l : List α) (i : Nat) (a : α), l.get? i = some a → l.set i a = l := by
  intro l
  induction l with
  | nil => intro i a h; cases h
  | cons x xs ih =>
    intro i a h
    cases i with
    | zero =>
      simp only [List.get?_cons_zero, Option.some.injEq] at h
      rw [List.set_cons_zero, h]
    | succ j =>
      simp only [List.get?_cons_succ] at h
      rw [List.set_cons_succ, ih j a h]

theorem cacheStep_fst {s s2 : CacheState} (h : CacheStep s s2) :
    s2.threads.map Prod.fst = s.threads.map Prod.fst := by
  cases h with
  | readHit i q hth hmem =>
    have : (s.threads.map Prod.fst).get? i = some q := by
      rw [List.get?_map, hth]; rfl
    simp only [List.map_set]
    exact set_get_self _ i q this
  | readMiss i q hth hmem =>
    have : (s.threads.map Prod.fst).get? i = some q := by
      rw [List.get?_map, hth]; rfl
    simp only [List.map_set]
    exact set_get_self _ i q this
  | lockHit i q hth hmem =>
    have : (s.threads.map Prod.fst).get? i = some q := by
      rw [List.get?_map, hth]; rfl
    simp only [List.map_set]
    exact set_get_self _ i q this
  | lockPrepare i q hth hmem =>
    have : (s.threads.map Prod.fst).get? i = some q := by
      rw [List.get?_map, hth]; rfl
    simp only [List.map_set]
    exact set_get_self _ i q this

theorem cacheStep_count_inv {s s2 : CacheState} (h : CacheStep s s2)
    (h1 : ∀ q, s.log.count q = if q ∈ s.prepared then 1 else 0) :
    ∀ q, s2.log.count q = if q ∈ s2.prepared then 1 else 0 := by
  cases h with
  | readHit i q hth hmem => exact h1
  | readMiss i q hth hmem => exact h1
  | lockHit i q hth hmem => exact h1
  | lockPrepare i q hth hmem =>
    intro q2
    show (s.log ++ [q]).count q2 = if q2 ∈ q :: s.prepared then 1 else 0
    by_cases hq : q2 = q
    · subst hq
      have h0 : s.log.count q2 = 0 := by rw [h1 q2, if_neg hmem]
      have hc : List.count q2 [q2] = 1 := by simp
      rw [List.count_append, h0, hc, if_pos (List.mem_cons_self q2 s.prepared)]
    · have hc : List.count q2 [q] = 0 :=
        List.count_eq_zero.2 (by simp [hq])
      rw [List.count_append, hc, Nat.add_zero, h1 q2]
      by_cases hmem2 : q2 ∈ s.prepared
      · rw [if_pos hmem2, if_pos (List.mem_cons_of_mem q hmem2)]
      · rw [if_neg hmem2, if_neg (by simp [List.mem_cons, hq, hmem2])]

theorem cacheStep_done_mem {s s2 : CacheState} (h : CacheStep s s2)
    (h2 : ∀ i q, s.threads.get? i = some (q, TPC.done) → q ∈ s.prepared) :
    ∀ i q, s2.threads.get? i = some (q, TPC.done) → q ∈ s2.prepared := by
  cases h with
  | readHit i q hth hmem =>
    intro j q2 hj
    by_cases hij : i = j
    · subst hij
      have hlt : i < s.threads.length := by
        by_contra hge
        rw [List.get?_eq_none.2 (Nat.le_of_not_lt hge)] at hth
        cases hth
      rw [List.get?_set_eq_of_lt _ hlt] at hj
      cases hj
      exact hmem
    · rw [List.get?_set_ne _ _ hij] at hj
      exact h2 j q2 hj
  | readMiss i q hth hmem =>
    intro j q2 hj
    by_cases hij : i = j
    · subst hij
      have hlt : i < s.threads.length := by
        by_contra hge
        rw [List.get?_eq_none.2 (Nat.le_of_not_lt hge)] at hth
        cases hth
      rw [List.get?_set_eq_of_lt _ hlt] at hj
      cases hj
    · rw [List.get?_set_ne _ _ hij] at hj
      exact h2 j q2 hj
  | lockHit i q hth hmem =>
    intro j q2 hj
    by_cases hij : i = j
    · subst hij
      have hlt : i < s.threads.length := by
        by_contra hge
        rw [List.get?_eq_none.2 (Nat.le_of_not_lt hge)] at hth
        cases hth
      rw [List.get?_set_eq_of_lt _ hlt] at hj
      cases hj
      exact hmem
    · rw [List.get?_set_ne _ _ hij] at hj
      exact h2 j q2 hj
  | lockPrepare i q hth hmem =>
    intro j q2 hj
    by_cases hij : i = j
    · subst hij
      have hlt : i < s.threads.length := by
        by_contra hge
        rw [List.get?_eq_none.2 (Nat.le_of_not_lt hge)] at hth
        cases hth
      rw [List.get?_set_eq_of_lt _ hlt] at hj
      cases hj
      exact List.mem_cons_self _ _
    · rw [List.get?_set_ne _ _ hij] at hj
      exact List.mem_cons_of_mem _ (h2 j q2 hj)

theorem cache_reach_inv {init s : CacheState} (hreach : CacheReach init s)
    (hprep : init.prepared = []) (hlog : init.log = []) :
    (∀ q, s.log.count q = if q ∈ s.prepared then 1 else 0) ∧
    s.threads.map Prod.fst = init.threads.map Prod.fst ∧
    ((∀ p ∈ init.threads, p.2 = TPC.start) →
      ∀ i q, s.threads.get? i = some (q, TPC.done) → q ∈ s.prepared) := by
  induction hreach with
  | refl =>
    refine ⟨?_, rfl, ?_⟩
    · intro q
      rw [hprep, hlog]
      simp
    · intro hstart i q hq
      have hm : (q, TPC.done) ∈ init.threads := List.get?_mem hq
      have := hstart _ hm
      simp at this
  | tail hab hbc ih =>
    obtain ⟨ih1, ih2, ih3⟩ := ih
    exact ⟨cacheStep_count_inv hbc ih1, (cacheStep_fst hbc).trans ih2,
      fun hs => cacheStep_done_mem hbc (ih3 hs)⟩
/-- C6: statement-cache preparation dedup. Under any interleaving of
concurrent `getStmt` executions (the read-locked lookup and the
exclusively-locked re-check/prepare/insert section each atomic, as the
RWMutex makes them): starting from a fresh cache, every SQL text is
prepared at most once while the cache holds it; and when N ≥ 1 callers of
the same never-before-seen text have all finished, exactly one preparation
call for that text has been made. -/
theorem stmt_cache_prepare_once :
    (∀ (init s : CacheState), init.prepared = [] → init.log = [] →
      CacheReach init s → ∀ q, s.log.count q ≤ 1) ∧
    (∀ (N : Nat) (q : Str) (s : CacheState), 0 < N →
      CacheReach (initCache (List.replicate N (q, TPC.start))) s →
      (∀ p ∈ s.threads, p.2 = TPC.done) →
      s.log.count q = 1) := by
  constructor
  · intro init s hprep hlog hreach q
    have h := (cache_reach_inv hreach hprep hlog).1 q
    rw [h]
    by_cases hm : q ∈ s.prepared <;> simp [hm]
  · intro N q s hN hreach hdone
    obtain ⟨h1, h2, h3⟩ := cache_reach_inv hreach rfl rfl
    have hstart : ∀ p ∈ (initCache (List.replicate N (q, TPC.start))).threads,
        p.2 = TPC.start := by
      intro p hp
      have := List.eq_of_mem_replicate hp
      rw [this]
    cases hthreads : s.threads with
    | nil =>
      exfalso
      have := h2
      rw [hthreads] at this
      simp only [List.map_nil, initCache] at this
      rw [List.map_replicate] at this
      have hlen := congrArg List.length this
      simp at hlen
      omega
    | cons p rest =>
      have hfst : p.1 = q := by
        have := h2
        rw [hthreads] at this
        simp only [List.map_cons, initCache] at this
        rw [List.map_replicate] at this
        cases N with
        | zero => cases hN
        | succ m =>
          rw [List.replicate_succ] at this
          exact (List.cons.injEq _ _ _ _ ▸ this).1
      have hsnd : p.2 = TPC.done := hdone p (hthreads ▸ List.mem_cons_self p rest)
      have hget : s.threads.get? 0 = some (q, TPC.done) := by
        rw [hthreads]
        simp only [List.get?_cons_zero, Option.some.injEq]
        rw [← hfst, ← hsnd]
      have hmem := h3 hstart 0 q hget
      rw [h1 q, if_pos hmem]

/-- Witness for C6: two goroutines racing on the same fresh text — both miss
the read-locked lookup, the first prepares under the exclusive lock, the
second's locked re-check hits — and exactly one prepare call is logged. -/
theorem stmt_cache_prepare_once_witness :
    (⟨[['x']], [['x']], [(['x'], TPC.done), (['x'], TPC.done)]⟩ : CacheState).log.count ['x'] = 1 := by
  have hreach : CacheReach (initCache (List.replicate 2 (['x'], TPC.start)))
      ⟨[['x']], [['x']], [(['x'], TPC.done), (['x'], TPC.done)]⟩ := by
    refine Relation.ReflTransGen.head
      (CacheStep.readMiss ⟨[], [], [(['x'], TPC.start), (['x'], TPC.start)]⟩ 0 ['x']
        (by rfl) (by decide)) ?_
    refine Relation.ReflTransGen.head
      (CacheStep.readMiss _ 1 ['x'] (by rfl) (by decide)) ?_
    refine Relation.ReflTransGen.head
      (CacheStep.lockPrepare _ 0 ['x'] (by rfl) (by decide)) ?_
    refine Relation.ReflTransGen.head
      (CacheStep.lockHit _ 1 ['x'] (by rfl) (by decide)) ?_
    exact Relation.ReflTransGen.refl
  exact stmt_cache_prepare_once.2 2 ['x']
    ⟨[['x']], [['x']], [(['x'], TPC.done), (['x'], TPC.done)]⟩
    (by decide) hreach (by decide)

end Sqlb
